import Mathlib

/-!
Verification of the upload-area hash cache of `backend/router/filemanagement.py`.

The Python module maintains a process-wide dictionary `HASH_CACHE` mapping the
basename of each item in the staging ("upload") directory to a record
`{filename, hash, timestamp}`.  Hashes are computed by `FileWatcher.calculate_hash`
(single file) and `FileWatcher.calculate_folder_hash` (directory tree), both of
which stream file contents in 1 MiB chunks through a `hashlib.sha256()` object
and retry reads that fail with `errno.EBUSY`.  Filesystem events are handled by
`FileWatcher.on_any_event`; the FastAPI `lifespan` context manager performs the
startup sweep and starts the polling observer; HTTP endpoints (`get_hash`,
`get_filesize`, `check_path_exists`, `list_files`) read the cache or the
filesystem.

This file gives a shallow embedding of those functions and proves or refutes
the specification claims about them.  Byte strings are `List Nat`; the SHA-256
hex digest itself is an abstract parameter `H : Bytes → Bytes` applied to the
byte stream absorbed by the `hashlib` object (`update` concatenates onto that
stream, which is the documented semantics of `hashlib`).  I/O nondeterminism
(which read attempts fail, and after how many chunks) is made explicit as a
schedule argument.
-/

namespace FileMgmt

/-- Byte strings: file contents, path strings and hex digests, as lists of byte values. -/
abbrev Bytes := List Nat

/-- A filesystem path, as its list of components. -/
abbrev FsPath := List Bytes

/-- `pathlib.Path(p).name`: the final path component (basename). -/
def pathName (p : FsPath) : Bytes := p.getLastD []

/-- The `os.path` separator byte (ASCII slash). -/
def sepByte : Nat := 47

/-- `os.path.join(root, rel)` on byte strings. -/
def pathJoin (root rel : Bytes) : Bytes := root ++ sepByte :: rel

/-- The byte string of a path: its components joined by the separator,
as `str(pathlib.Path(...))` produces it. -/
def pathBytes (p : FsPath) : Bytes := List.intercalate [sepByte] p

/-- Lexicographic comparison of byte strings, as Python compares `str`
(`all_files.sort()` sorts path strings this way). -/
def lexLe : Bytes → Bytes → Bool
  | [], _ => true
  | _ :: _, [] => false
  | a :: as, b :: bs => if a < b then true else if a = b then lexLe as bs else false

/-- Insert into a `lexLe`-sorted list of byte strings. -/
def insertLe (a : Bytes) : List Bytes → List Bytes
  | [] => [a]
  | b :: bs => if lexLe a b then a :: b :: bs else b :: insertLe a bs

/-- Sorting a list of byte strings by `lexLe`; models Python's `list.sort()`
on path strings (any correct comparison sort computes the same list). -/
def sortLe : List Bytes → List Bytes
  | [] => []
  | a :: as => insertLe a (sortLe as)

/-- The chunks yielded by `iter(lambda: f.read(bufSize), b"")` over content `l`.
`f.read(0)` returns `b""` at once, so buffer size `0` yields no chunks. -/
def chunksOf (bufSize : Nat) : Bytes → List Bytes
  | [] => []
  | a :: rest =>
    match bufSize with
    | 0 => []
    | b + 1 => (a :: rest).take (b + 1) :: chunksOf (b + 1) ((a :: rest).drop (b + 1))
termination_by l => l.length
decreasing_by
  simp only [List.length_drop, List.length_cons]
  omega

/-- `buffer_size = 1024 * 1024` from `calculate_hash` / `calculate_folder_hash`. -/
def bufferSize : Nat := 1024 * 1024

/-- Outcome of one `open`-and-read attempt on a file.
`ok` means the open and every chunked read succeed.
`fail k busy` means an `IOError` is raised after `k` chunks were already read
and absorbed into the hash object (`k = 0`: the `open` itself raised);
`busy` records whether `e.errno == errno.EBUSY`. -/
inductive Attempt where
  | ok : Attempt
  | fail (chunksRead : Nat) (busy : Bool) : Attempt
deriving DecidableEq, Repr

/-- The retry loop shared by `calculate_hash` (lines 120-133) and the per-file
loop of `calculate_folder_hash` (lines 175-189):

    for attempt in range(retries):
        try:
            with open(filepath, "rb") as f:
                for byte_block in iter(lambda: f.read(buffer_size), b""):
                    sha256_hash.update(byte_block)
            break
        except IOError as e:
            if e.errno == errno.EBUSY and attempt < retries - 1:
                time.sleep(delay); continue-like fallthrough
            else:
                return None

`absorbed` is the byte stream already fed to the sha256 object; the object is
created before the loop and never reset, so chunks read by a failed attempt
stay absorbed.  `remaining = retries - attempt`; the guard
`attempt < retries - 1` is `1 ≤ remaining - 1`.  Returns the absorbed stream
after the successful attempt, or `none` when the loop hits `return None`. -/
def attemptRead (bufSize : Nat) (content : Bytes) :
    Nat → List Attempt → Bytes → Option Bytes
  | 0, _, _ => none
  | remaining + 1, sched, absorbed =>
    match sched.headD Attempt.ok with
    | Attempt.ok => some (absorbed ++ (chunksOf bufSize content).flatten)
    | Attempt.fail k busy =>
      if busy ∧ 0 < remaining then
        attemptRead bufSize content remaining sched.tail
          (absorbed ++ ((chunksOf bufSize content).take k).flatten)
      else none

/-- The record built by `calculate_hash` / `calculate_folder_hash`:
`{"filename": key, "hash": hash_value, "timestamp": time.time()}`. -/
structure HashResult where
  filename : Bytes
  hash : Bytes
  timestamp : Nat
deriving DecidableEq, Repr

/-- `HASH_CACHE`: a Python dict, modelled as an association list. -/
abbrev Cache := List (Bytes × HashResult)

/-- `HASH_CACHE.get(key)`. -/
def cacheGet (c : Cache) (k : Bytes) : Option HashResult :=
  (c.find? (fun p => p.1 == k)).map Prod.snd

/-- `HASH_CACHE[key] = v` (dict assignment replaces any entry at `key`). -/
def cacheInsert (c : Cache) (k : Bytes) (v : HashResult) : Cache :=
  (k, v) :: c.filter (fun p => p.1 != k)

/-- `HASH_CACHE.pop(key, None)`. -/
def cachePop (c : Cache) (k : Bytes) : Cache :=
  c.filter (fun p => p.1 != k)

/-- `FileWatcher.calculate_hash(filepath, retries=3, delay=2)` (lines 109-147).
`H` is the hex digest of the absorbed stream; `content` and `sched` describe
the file at `filepath` and the I/O outcomes of the successive attempts;
`now` stands for `time.time()`.  Returns the function result together with the
cache after the call (line 146 `HASH_CACHE[key] = result` runs only on the
success path; every failure path is `return None` before it). -/
def calculate_hash (H : Bytes → Bytes) (filepath : FsPath) (content : Bytes)
    (sched : List Attempt) (retries bufSize now : Nat) (cache : Cache) :
    Option HashResult × Cache :=
  let key := pathName filepath
  match attemptRead bufSize content retries sched [] with
  | none => (none, cache)
  | some absorbed =>
    let result : HashResult := ⟨key, H absorbed, now⟩
    (some result, cacheInsert cache key result)

/-- One file as seen by `calculate_folder_hash`: its path relative to the
folder root, its content, and the I/O schedule of its read attempts. -/
structure FileEntry where
  rel : Bytes
  content : Bytes
  sched : List Attempt
deriving DecidableEq, Repr

/-- The files enumerated by `os.walk(folderpath)` (lines 163-165), flattened to
relative paths.  `os.walk` is called with the default `onerror=None`, which
silently ignores the scandir error of a missing or unreadable root, so a root
that does not exist (`none`) enumerates as the empty list. -/
def osWalk (fs : Option (List FileEntry)) : List FileEntry := fs.getD []

/-- Looking a walked file back up by its relative path (the code re-opens each
sorted path; in the model the filesystem is the `FileEntry` list). -/
def findFile (files : List FileEntry) (rel : Bytes) : FileEntry :=
  (files.find? (fun f => f.rel == rel)).getD ⟨rel, [], []⟩

/-- The `for file_path in all_files` loop of `calculate_folder_hash`
(lines 169-189): for each sorted full path, absorb
`os.path.relpath(file_path, folderpath)` into the digest, then run the chunked
read with EBUSY retries on the file; any `return None` aborts the whole call. -/
def hashFilesLoop (bufSize retries : Nat) (files : List FileEntry) (root : Bytes) :
    List Bytes → Bytes → Option Bytes
  | [], absorbed => some absorbed
  | fp :: rest, absorbed =>
    (attemptRead bufSize (findFile files (fp.drop (root.length + 1))).content retries
        (findFile files (fp.drop (root.length + 1))).sched
        (absorbed ++ fp.drop (root.length + 1))).bind
      (fun absorbed1 => hashFilesLoop bufSize retries files root rest absorbed1)

/-- `FileWatcher.calculate_folder_hash(folderpath, retries=3, delay=2)`
(lines 149-211).  `fs` is the directory tree under `folderpath` (`none` when
the root does not exist or is unreadable).  The code collects the full paths
`os.path.join(root, file)`, sorts them (`all_files.sort()`), and hashes
relative path then content for each; on success it stores the result in the
cache (line 204), on any failure it returns `None` without touching it. -/
def calculate_folder_hash (H : Bytes → Bytes) (folderpath : FsPath)
    (fs : Option (List FileEntry)) (retries bufSize now : Nat) (cache : Cache) :
    Option HashResult × Cache :=
  let key := pathName folderpath
  let root := pathBytes folderpath
  let files := osWalk fs
  let all_files := sortLe (files.map (fun f => pathJoin root f.rel))
  match hashFilesLoop bufSize retries files root all_files [] with
  | none => (none, cache)
  | some absorbed =>
    let result : HashResult := ⟨key, H absorbed, now⟩
    (some result, cacheInsert cache key result)

/-- A directory file given as (relative path, content), as a `FileEntry` whose
reads are clean. -/
def cleanEntry (rc : Bytes × Bytes) : FileEntry := ⟨rc.1, rc.2, []⟩

/-- The byte stream a clean run of `calculate_folder_hash` feeds to SHA-256
("digest input"), computed exactly as the code does: sort the full paths
`os.path.join(root, file)` of the walked files, then concatenate relative path
followed by content for each. -/
def folderDigestInput (folderpath : FsPath) (files : List (Bytes × Bytes)) : Bytes :=
  ((sortLe (files.map (fun rc => pathJoin (pathBytes folderpath) rc.1))).map (fun fp =>
    fp.drop ((pathBytes folderpath).length + 1) ++
      (findFile (files.map cleanEntry)
        (fp.drop ((pathBytes folderpath).length + 1))).content)).flatten

/-- The digest input as the specification words it: fold relative path followed
by content over the files in lexicographically sorted relative-path order. -/
def folderDigestInputSpec (files : List (Bytes × Bytes)) : Bytes :=
  ((sortLe (files.map Prod.fst)).map (fun r =>
    r ++ (findFile (files.map cleanEntry) r).content)).flatten

/-- A watchdog filesystem event as `on_any_event` consumes it: its
`event_type` string, `is_directory` flag, `src_path` and (for moves)
`dest_path`. -/
structure FSEvent where
  eventType : String
  isDirectory : Bool
  srcPath : FsPath
  destPath : FsPath
deriving DecidableEq, Repr

/-- A task submitted to the `ThreadPoolExecutor` by `on_any_event`. -/
inductive PoolTask where
  | fileHash (path : FsPath) : PoolTask
  | folderHash (path : FsPath) : PoolTask
deriving DecidableEq, Repr

/-- `FileWatcher.on_any_event(event)` (lines 49-78): its effect on `HASH_CACHE`
and the list of tasks it submits to the executor.  A `"deleted"` event pops the
basename and returns before any submission; other events submit one hashing
task on `src_path` (`dest_path` for `"moved"`), and a `"moved"` event also pops
the old basename. -/
def on_any_event (e : FSEvent) (cache : Cache) : Cache × List PoolTask :=
  if e.eventType = "deleted" then
    (cachePop cache (pathName e.srcPath), [])
  else
    let target := if e.eventType ≠ "moved" then e.srcPath else e.destPath
    let tasks := [if e.isDirectory then PoolTask.folderHash target else PoolTask.fileHash target]
    let cache1 := if e.eventType = "moved" then cachePop cache (pathName e.srcPath) else cache
    (cache1, tasks)

/-- The result-collection loop of `calculate_hashes_on_startup` (lines 98-107):
each future's result is stored under its own `"filename"` field when it is not
`None`; a future that raised is logged and skipped (modelled by `none`). -/
def startupStore (results : List (Option HashResult)) (cache : Cache) : Cache :=
  results.foldl
    (fun c r =>
      match r with
      | none => c
      | some v => cacheInsert c v.filename v)
    cache

/-- One observable step of the `lifespan` startup sequence (lines 214-250). -/
inductive StartupAction where
  | makedirs : StartupAction
  | initExecutor : StartupAction
  | runSweep : StartupAction
  | logStartupError : StartupAction
  | startObserver : StartupAction
  | yieldApp : StartupAction
deriving DecidableEq, Repr

/-- The startup half of `lifespan` (lines 214-250), as the trace of actions it
performs, depending on whether `calculate_hashes_on_startup` raises.  The
`try` block runs the sweep and only then creates, schedules and starts the
observer before yielding; the `except` block logs the error and yields.  A
sweep exception therefore jumps from `runSweep` directly to the handler. -/
def lifespanStartupTrace (sweepRaises : Bool) : List StartupAction :=
  [StartupAction.makedirs, StartupAction.initExecutor, StartupAction.runSweep] ++
    (if sweepRaises then [StartupAction.logStartupError, StartupAction.yieldApp]
     else [StartupAction.startObserver, StartupAction.yieldApp])

/-- The completion of one worker-pool hash computation for a fixed name:
`seq` is the submission order of its triggering event (larger = newer), and
`entry` the `HashResult` it computed. -/
structure Completion where
  seq : Nat
  entry : HashResult
deriving DecidableEq, Repr

/-- The cache write path executed as in-flight computations for one `name`
finish, in completion order: each one runs `HASH_CACHE[key] = result`
unconditionally (line 146 / line 204) — there is no sequence-number or
timestamp guard comparing against the stored entry. -/
def applyCompletions (cache : Cache) (name : Bytes) (comps : List Completion) : Cache :=
  comps.foldl (fun c comp => cacheInsert c name comp.entry) cache

/-- Reply of the `get_hash` endpoint (lines 276-297): 404 when the name is not
cached, otherwise 200 with the stored record's `"hash"` field. -/
inductive HashReply where
  | notFound : HashReply
  | okHash (h : Bytes) : HashReply
deriving DecidableEq, Repr

/-- `get_hash(filename)` (lines 284-297). -/
def get_hash (cache : Cache) (filename : Bytes) : HashReply :=
  match cacheGet cache filename with
  | none => HashReply.notFound
  | some info => HashReply.okHash info.hash

/-- What one of the path endpoints hands back to the framework: a structured
HTTP reply with a status code, or an exception that escapes the handler. -/
inductive EndpointResult where
  | http (code : Nat) : EndpointResult
  | raisedOSError (errnoVal : Nat) : EndpointResult
deriving DecidableEq, Repr

/-- `errno.ENOENT`. -/
def enoent : Nat := 2

/-- The part of the filesystem the path endpoints consult: the set of existing
paths, each with the size `os.path.getsize` would report. -/
abbrev StatFS := List (Bytes × Nat)

/-- `pathlib.Path(p).exists()` / the success of `os.stat`. -/
def fsExists (fs : StatFS) (p : Bytes) : Bool :=
  (fs.find? (fun q => q.1 == p)).isSome

/-- `get_filesize(filepath)` (lines 305-312): a bare `os.path.getsize` call
with no existence check and no try/except — on a missing path the `OSError`
propagates out of the handler. -/
def get_filesize (fs : StatFS) (p : Bytes) : EndpointResult :=
  match fs.find? (fun q => q.1 == p) with
  | none => EndpointResult.raisedOSError enoent
  | some _ => EndpointResult.http 200

/-- `check_path_exists(filepath)` (lines 369-380): structured 404 via
`HTTPException` when the path does not exist, else 200. -/
def check_path_exists (fs : StatFS) (p : Bytes) : EndpointResult :=
  if fsExists fs p then EndpointResult.http 200
  else EndpointResult.http 404

/-- `list_files(filepath)` (lines 391-408): structured 404 via `HTTPException`
when the path does not exist, else 200 with the directory listing. -/
def list_files (fs : StatFS) (p : Bytes) : EndpointResult :=
  if fsExists fs p then EndpointResult.http 200
  else EndpointResult.http 404

/-- The cache well-formedness invariant of claim C9: every stored value's
`"filename"` field equals its own key. -/
def CacheWF (c : Cache) : Prop :=
  ∀ p ∈ c, (Prod.snd p).filename = p.1

/-! ### Basic cache lemmas -/

theorem cacheGet_insert_self (c : Cache) (k : Bytes) (v : HashResult) :
    cacheGet (cacheInsert c k v) k = some v := by
  simp [cacheGet, cacheInsert]

theorem cacheGet_pop_self (c : Cache) (k : Bytes) :
    cacheGet (cachePop c k) k = none := by
  simp only [cacheGet, cachePop, Option.map_eq_none', List.find?_eq_none]
  intro p hp
  rcases List.mem_filter.mp hp with ⟨-, hne⟩
  simpa using hne

theorem cacheWF_insert {c : Cache} {k : Bytes} {v : HashResult}
    (hc : CacheWF c) (hv : v.filename = k) : CacheWF (cacheInsert c k v) := by
  intro p hp
  rcases List.mem_cons.mp hp with rfl | hmem
  · exact hv
  · exact hc p (List.mem_of_mem_filter hmem)

theorem cacheWF_pop {c : Cache} (hc : CacheWF c) (k : Bytes) :
    CacheWF (cachePop c k) := by
  intro p hp
  exact hc p (List.mem_of_mem_filter hp)

/-! ### Chunked reading -/

theorem flatten_chunksOf_aux (b : Nat) :
    ∀ (n : Nat) (l : Bytes), l.length ≤ n → (chunksOf (b + 1) l).flatten = l := by
  intro n
  induction n with
  | zero =>
    intro l hl
    match l with
    | [] => simp [chunksOf]
    | a :: rest => simp at hl
  | succ n ih =>
    intro l hl
    match l with
    | [] => simp [chunksOf]
    | a :: rest =>
      rw [chunksOf]
      simp only [List.flatten_cons]
      rw [ih ((a :: rest).drop (b + 1)) (by simp at hl ⊢; omega)]
      exact List.take_append_drop _ _

theorem flatten_chunksOf (b : Nat) (l : Bytes) :
    (chunksOf (b + 1) l).flatten = l :=
  flatten_chunksOf_aux b l.length l le_rfl

theorem attemptRead_clean (bufSize : Nat) (content : Bytes) (remaining : Nat)
    (sched : List Attempt) (absorbed : Bytes) (h : sched.headD Attempt.ok = Attempt.ok) :
    attemptRead bufSize content (remaining + 1) sched absorbed =
      some (absorbed ++ (chunksOf bufSize content).flatten) := by
  rw [attemptRead, h]

/-- A clean first attempt with a positive buffer absorbs exactly the file's
byte content. -/
theorem attemptRead_clean_content (b : Nat) (content : Bytes) (remaining : Nat)
    (sched : List Attempt) (absorbed : Bytes) (h : sched.headD Attempt.ok = Attempt.ok) :
    attemptRead (b + 1) content (remaining + 1) sched absorbed =
      some (absorbed ++ content) := by
  rw [attemptRead_clean _ _ _ _ _ h, flatten_chunksOf]

/-! ### Behaviour of `calculate_hash` -/

/-- Anatomy of a `calculate_hash` call: a failing run returns `None` and leaves
the cache exactly as it was; a successful run returns the record keyed by the
basename and stores it there. -/
theorem calculate_hash_spec (H : Bytes → Bytes) (filepath : FsPath) (content : Bytes)
    (sched : List Attempt) (retries bufSize now : Nat) (cache : Cache) :
    ((calculate_hash H filepath content sched retries bufSize now cache).1 = none →
      (calculate_hash H filepath content sched retries bufSize now cache).2 = cache) ∧
    (∀ r, (calculate_hash H filepath content sched retries bufSize now cache).1 = some r →
      r.filename = pathName filepath ∧
      (calculate_hash H filepath content sched retries bufSize now cache).2 =
        cacheInsert cache (pathName filepath) r) := by
  unfold calculate_hash
  cases attemptRead bufSize content retries sched [] with
  | none => exact ⟨fun _ => rfl, fun r hr => by simp at hr⟩
  | some absorbed =>
    refine ⟨fun hnone => by simp at hnone, fun r hr => ?_⟩
    simp only [Option.some.injEq] at hr
    subst hr
    exact ⟨rfl, rfl⟩

theorem calculate_hash_clean (H : Bytes → Bytes) (filepath : FsPath) (content : Bytes)
    (sched : List Attempt) (r b now : Nat) (cache : Cache)
    (h : sched.headD Attempt.ok = Attempt.ok) :
    calculate_hash H filepath content sched (r + 1) (b + 1) now cache =
      (some ⟨pathName filepath, H content, now⟩,
       cacheInsert cache (pathName filepath) ⟨pathName filepath, H content, now⟩) := by
  unfold calculate_hash
  rw [attemptRead_clean_content _ _ _ _ _ h]
  rfl

/-! ### Behaviour of `calculate_folder_hash` -/

theorem calculate_folder_hash_spec (H : Bytes → Bytes) (folderpath : FsPath)
    (fs : Option (List FileEntry)) (retries bufSize now : Nat) (cache : Cache) :
    ((calculate_folder_hash H folderpath fs retries bufSize now cache).1 = none →
      (calculate_folder_hash H folderpath fs retries bufSize now cache).2 = cache) ∧
    (∀ r, (calculate_folder_hash H folderpath fs retries bufSize now cache).1 = some r →
      r.filename = pathName folderpath ∧
      (calculate_folder_hash H folderpath fs retries bufSize now cache).2 =
        cacheInsert cache (pathName folderpath) r) := by
  cases h : hashFilesLoop bufSize retries (osWalk fs) (pathBytes folderpath)
      (sortLe ((osWalk fs).map (fun f => pathJoin (pathBytes folderpath) f.rel))) [] with
  | none => simp [calculate_folder_hash, h]
  | some absorbed => simp [calculate_folder_hash, h]

/-! ### Lexicographic order on byte strings -/

theorem lexLe_nil (b : Bytes) : lexLe [] b = true := rfl

theorem lexLe_cons (x y : Nat) (xs ys : Bytes) :
    lexLe (x :: xs) (y :: ys) = true ↔ (x < y ∨ (x = y ∧ lexLe xs ys = true)) := by
  simp only [lexLe]
  split_ifs with h1 h2
  · simp [h1]
  · simp [h1, h2]
  · simp [h1, h2]

theorem lexLe_total (a b : Bytes) : lexLe a b = true ∨ lexLe b a = true := by
  induction a generalizing b with
  | nil => exact Or.inl rfl
  | cons x xs ih =>
    cases b with
    | nil => exact Or.inr rfl
    | cons y ys =>
      rcases Nat.lt_trichotomy x y with h | h | h
      · exact Or.inl ((lexLe_cons _ _ _ _).mpr (Or.inl h))
      · subst h
        rcases ih ys with h2 | h2
        · exact Or.inl ((lexLe_cons _ _ _ _).mpr (Or.inr ⟨rfl, h2⟩))
        · exact Or.inr ((lexLe_cons _ _ _ _).mpr (Or.inr ⟨rfl, h2⟩))
      · exact Or.inr ((lexLe_cons _ _ _ _).mpr (Or.inl h))

theorem lexLe_trans : ∀ {a b c : Bytes},
    lexLe a b = true → lexLe b c = true → lexLe a c = true := by
  intro a
  induction a with
  | nil => intro b c h1 h2; rfl
  | cons x xs ih =>
    intro b c h1 h2
    cases b with
    | nil => simp [lexLe] at h1
    | cons y ys =>
      cases c with
      | nil => simp [lexLe] at h2
      | cons z zs =>
        rw [lexLe_cons] at h1 h2 ⊢
        rcases h1 with h1 | ⟨rfl, h1⟩
        · rcases h2 with h2 | ⟨rfl, h2⟩
          · exact Or.inl (Nat.lt_trans h1 h2)
          · exact Or.inl h1
        · rcases h2 with h2 | ⟨rfl, h2⟩
          · exact Or.inl h2
          · exact Or.inr ⟨rfl, ih h1 h2⟩

theorem lexLe_antisymm : ∀ {a b : Bytes},
    lexLe a b = true → lexLe b a = true → a = b := by
  intro a
  induction a with
  | nil =>
    intro b h1 h2
    cases b with
    | nil => rfl
    | cons y ys => simp [lexLe] at h2
  | cons x xs ih =>
    intro b h1 h2
    cases b with
    | nil => simp [lexLe] at h1
    | cons y ys =>
      rw [lexLe_cons] at h1 h2
      rcases h1 with h1 | ⟨rfl, h1⟩
      · rcases h2 with h2 | ⟨h2, -⟩
        · omega
        · omega
      · rcases h2 with h2 | ⟨-, h2⟩
        · omega
        · rw [ih h1 h2]

theorem lexLe_false_of_ne {a b : Bytes} (hab : a ≠ b) (h : lexLe a b = true) :
    lexLe b a = false := by
  cases hh : lexLe b a
  · rfl
  · exact absurd (lexLe_antisymm h hh) hab

theorem lexLe_append_left (p a b : Bytes) : lexLe (p ++ a) (p ++ b) = lexLe a b := by
  induction p with
  | nil => rfl
  | cons x xs ih => simp [lexLe, ih]

/-! ### Sorting -/

theorem insertLe_perm (a : Bytes) (l : List Bytes) : List.Perm (insertLe a l) (a :: l) := by
  induction l with
  | nil => exact List.Perm.refl _
  | cons b bs ih =>
    by_cases h : lexLe a b = true
    · simp [insertLe, h]
    · simp only [insertLe, if_neg h]
      exact (List.Perm.cons b ih).trans (List.Perm.swap a b bs)

theorem sortLe_perm (l : List Bytes) : List.Perm (sortLe l) l := by
  induction l with
  | nil => exact List.Perm.refl _
  | cons a as ih => exact (insertLe_perm a (sortLe as)).trans (List.Perm.cons a ih)

theorem insertLe_comm (a b : Bytes) (l : List Bytes) :
    insertLe a (insertLe b l) = insertLe b (insertLe a l) := by
  rcases eq_or_ne a b with rfl | hab
  · rfl
  induction l with
  | nil =>
    rcases lexLe_total a b with h | h
    · have h2 := lexLe_false_of_ne hab h
      simp [insertLe, h, h2]
    · have h2 := lexLe_false_of_ne (Ne.symm hab) h
      simp [insertLe, h, h2]
  | cons c cs ih =>
    by_cases hac : lexLe a c = true
    · by_cases hbc : lexLe b c = true
      · rcases lexLe_total a b with h | h
        · have h2 := lexLe_false_of_ne hab h
          simp [insertLe, hac, hbc, h, h2]
        · have h2 := lexLe_false_of_ne (Ne.symm hab) h
          simp [insertLe, hac, hbc, h, h2]
      · have hba : lexLe b a = false := by
          cases hh : lexLe b a
          · rfl
          · exact absurd (lexLe_trans hh hac) hbc
        simp [insertLe, hac, hbc, hba]
    · by_cases hbc : lexLe b c = true
      · have hab2 : lexLe a b = false := by
          cases hh : lexLe a b
          · rfl
          · exact absurd (lexLe_trans hh hbc) hac
        simp [insertLe, hac, hbc, hab2]
      · simp [insertLe, hac, hbc, ih]

theorem sortLe_eq_of_perm {l₁ l₂ : List Bytes} (h : List.Perm l₁ l₂) : sortLe l₁ = sortLe l₂ := by
  induction h with
  | nil => rfl
  | cons x _ ih => simp [sortLe, ih]
  | swap x y l => simp [sortLe, insertLe_comm]
  | trans _ _ ih1 ih2 => exact ih1.trans ih2

theorem insertLe_map_append (p a : Bytes) (l : List Bytes) :
    insertLe (p ++ a) (l.map (fun x => p ++ x)) = (insertLe a l).map (fun x => p ++ x) := by
  induction l with
  | nil => rfl
  | cons b bs ih =>
    simp only [List.map_cons, insertLe, lexLe_append_left]
    by_cases h : lexLe a b = true
    · simp [h]
    · simp [h, ih]

theorem sortLe_map_append (p : Bytes) (l : List Bytes) :
    sortLe (l.map (fun x => p ++ x)) = (sortLe l).map (fun x => p ++ x) := by
  induction l with
  | nil => rfl
  | cons a as ih => simp only [List.map_cons, sortLe, ih, insertLe_map_append]

/-! ### Looking files up by relative path -/

theorem findFile_mem : ∀ {files : List FileEntry} {fe : FileEntry},
    (files.map FileEntry.rel).Nodup → fe ∈ files → findFile files fe.rel = fe := by
  intro files
  induction files with
  | nil => intro fe _ hmem; cases hmem
  | cons f rest ih =>
    intro fe hnodup hmem
    simp only [List.map_cons, List.nodup_cons] at hnodup
    rcases List.mem_cons.mp hmem with rfl | hmem2
    · have hpos : (fe.rel == fe.rel) = true := by simp
      unfold findFile
      rw [List.find?_cons, hpos]
      rfl
    · have hne : (f.rel == fe.rel) = false := by
        simp only [beq_eq_false_iff_ne, ne_eq]
        intro he
        apply hnodup.1
        rw [he]
        exact List.mem_map_of_mem FileEntry.rel hmem2
      unfold findFile
      rw [List.find?_cons, hne]
      simpa [findFile] using ih hnodup.2 hmem2

theorem cleanEntry_rel_map (files : List (Bytes × Bytes)) :
    (files.map cleanEntry).map FileEntry.rel = files.map Prod.fst := by
  simp [cleanEntry, List.map_map, Function.comp]

theorem findFile_cleanEntry {files : List (Bytes × Bytes)} {rc : Bytes × Bytes}
    (hnodup : (files.map Prod.fst).Nodup) (hmem : rc ∈ files) :
    findFile (files.map cleanEntry) rc.1 = cleanEntry rc := by
  exact @findFile_mem (files.map cleanEntry) (cleanEntry rc)
    (by rw [cleanEntry_rel_map]; exact hnodup)
    (List.mem_map_of_mem cleanEntry hmem)

/-! ### The folder digest input -/

/-- Sorting the full joined paths and stripping the root prefix is the same as
sorting the relative paths: the code's digest input matches the specification's
sorted-relative-path fold. -/
theorem folderDigestInput_eq_spec (folderpath : FsPath) (files : List (Bytes × Bytes)) :
    folderDigestInput folderpath files = folderDigestInputSpec files := by
  unfold folderDigestInput folderDigestInputSpec
  have hmap : files.map (fun rc => pathJoin (pathBytes folderpath) rc.1) =
      (files.map Prod.fst).map (fun x => (pathBytes folderpath ++ [sepByte]) ++ x) := by
    simp [pathJoin, List.map_map, Function.comp]
  rw [hmap, sortLe_map_append, List.map_map]
  congr 1
  apply List.map_congr_left
  intro r _
  have hlen : (pathBytes folderpath ++ [sepByte]).length =
      (pathBytes folderpath).length + 1 := by simp
  have hdrop : ((pathBytes folderpath ++ [sepByte]) ++ r).drop
      ((pathBytes folderpath).length + 1) = r := by
    rw [← hlen, List.drop_left]
  simp [Function.comp, hdrop]

/-- The digest input does not depend on the order in which the directory walk
enumerates the files. -/
theorem folderDigestInputSpec_perm {files₁ files₂ : List (Bytes × Bytes)}
    (hperm : List.Perm files₁ files₂) (hnodup : (files₁.map Prod.fst).Nodup) :
    folderDigestInputSpec files₁ = folderDigestInputSpec files₂ := by
  have hnodup2 : (files₂.map Prod.fst).Nodup :=
    ((hperm.map Prod.fst).nodup_iff).mp hnodup
  unfold folderDigestInputSpec
  rw [← sortLe_eq_of_perm (hperm.map Prod.fst)]
  congr 1
  apply List.map_congr_left
  intro r hr
  have hr1 : r ∈ files₁.map Prod.fst := (sortLe_perm _).mem_iff.mp hr
  rcases List.mem_map.mp hr1 with ⟨rc, hrc, rfl⟩
  rw [findFile_cleanEntry hnodup hrc,
    findFile_cleanEntry hnodup2 (hperm.mem_iff.mp hrc)]

theorem folderDigestInputSpec_length {files : List (Bytes × Bytes)}
    (hnodup : (files.map Prod.fst).Nodup) :
    (folderDigestInputSpec files).length =
      (files.map (fun rc => rc.1.length + rc.2.length)).sum := by
  unfold folderDigestInputSpec
  have hstep : ∀ (g : Bytes → Nat),
      ((sortLe (files.map Prod.fst)).map g).sum = ((files.map Prod.fst).map g).sum :=
    fun g => List.Perm.sum_eq ((sortLe_perm _).map g)
  rw [List.length_flatten, List.map_map, hstep, List.map_map]
  congr 1
  apply List.map_congr_left
  intro rc hrc
  simp [Function.comp, findFile_cleanEntry hnodup hrc, cleanEntry]

/-- Adding a file with a nonempty name (equivalently: removing it) changes the
digest input. -/
theorem folderDigestInputSpec_add_changes {files : List (Bytes × Bytes)}
    {rc : Bytes × Bytes}
    (hnodup : ((rc :: files).map Prod.fst).Nodup) (hr : rc.1 ≠ []) :
    folderDigestInputSpec (rc :: files) ≠ folderDigestInputSpec files := by
  intro he
  have h1 := folderDigestInputSpec_length hnodup
  have h2 := folderDigestInputSpec_length
    (by simpa using (List.nodup_cons.mp (by simpa using hnodup)).2)
  rw [he] at h1
  rw [h2] at h1
  simp only [List.map_cons, List.sum_cons] at h1
  have hpos : 0 < rc.1.length := List.length_pos.mpr hr
  omega

/-! ### `calculate_folder_hash` on a clean directory -/

theorem hashFilesLoop_clean (b r : Nat) (files : List FileEntry) (root : Bytes)
    (hsched : ∀ f ∈ files, f.sched = []) :
    ∀ (fps : List Bytes) (absorbed : Bytes),
      hashFilesLoop (b + 1) (r + 1) files root fps absorbed =
        some (absorbed ++ (fps.map (fun fp =>
          fp.drop (root.length + 1) ++
            (findFile files (fp.drop (root.length + 1))).content)).flatten) := by
  intro fps
  induction fps with
  | nil => intro absorbed; simp [hashFilesLoop]
  | cons fp rest ih =>
    intro absorbed
    rw [hashFilesLoop]
    have hs : (findFile files (fp.drop (root.length + 1))).sched = [] := by
      unfold findFile
      cases hf : files.find? (fun f => f.rel == fp.drop (root.length + 1)) with
      | none => rfl
      | some fe => exact hsched fe (List.mem_of_find?_eq_some hf)
    rw [attemptRead_clean_content _ _ _ _ _ (by rw [hs]; rfl)]
    rw [Option.some_bind, ih]
    simp

/-- A fully clean `calculate_folder_hash` run returns the digest of
`folderDigestInput` and caches it under the folder's basename. -/
theorem calculate_folder_hash_clean (H : Bytes → Bytes) (folderpath : FsPath)
    (files : List (Bytes × Bytes)) (r b now : Nat) (cache : Cache) :
    calculate_folder_hash H folderpath (some (files.map cleanEntry))
        (r + 1) (b + 1) now cache =
      (some ⟨pathName folderpath, H (folderDigestInput folderpath files), now⟩,
       cacheInsert cache (pathName folderpath)
         ⟨pathName folderpath, H (folderDigestInput folderpath files), now⟩) := by
  have hsched : ∀ f ∈ files.map cleanEntry, f.sched = [] := by
    intro f hf
    rcases List.mem_map.mp hf with ⟨rc, -, rfl⟩
    rfl
  have hmaps : (files.map cleanEntry).map (fun f => pathJoin (pathBytes folderpath) f.rel) =
      files.map (fun rc => pathJoin (pathBytes folderpath) rc.1) := by
    simp [cleanEntry, List.map_map, Function.comp]
  have hl := hashFilesLoop_clean b r (files.map cleanEntry) (pathBytes folderpath) hsched
    (sortLe (files.map (fun rc => pathJoin (pathBytes folderpath) rc.1))) []
  simp only [calculate_folder_hash, osWalk, Option.getD_some, hmaps, hl,
    List.nil_append]
  rfl

/-! ### Claim C1 -/

/-- C1 counterexample: for name "f", a computation triggered by the newer event
(sequence 2, digest "h2") completes first; the older one (sequence 1, digest
"h1") completes later.  The code's unconditional `HASH_CACHE[key] = result`
leaves the older entry in the cache, although the claim requires that an older
in-flight computation never overwrite a newer result. -/
theorem claim_C1_counterexample :
    cacheGet (applyCompletions [] [102]
        [⟨2, ⟨[102], [104, 50], 11⟩⟩, ⟨1, ⟨[102], [104, 49], 10⟩⟩]) [102] =
      some ⟨[102], [104, 49], 10⟩ ∧
    (1 : Nat) < 2 ∧
    (⟨[102], [104, 49], 10⟩ : HashResult) ≠ ⟨[102], [104, 50], 11⟩ := by
  refine ⟨rfl, by omega, by decide⟩

/-- C1 (amended): the cache converges to the result of the most recently
*completed* computation, not the most recent triggering event: each completion
overwrites the entry unconditionally, so after any nonempty sequence of
completions the cached entry is the last one to finish, whatever the sequence
numbers of the triggering events were. -/
theorem claim_C1_amended : ∀ (comps : List Completion) (x : Completion)
    (cache : Cache) (name : Bytes),
    cacheGet (applyCompletions cache name (x :: comps)) name =
      some ((x :: comps).getLast (List.cons_ne_nil x comps)).entry := by
  intro comps
  induction comps with
  | nil =>
    intro x cache name
    simp [applyCompletions, cacheGet_insert_self]
  | cons y ys ih =>
    intro x cache name
    have h1 : applyCompletions cache name (x :: y :: ys) =
        applyCompletions (cacheInsert cache name x.entry) name (y :: ys) := rfl
    rw [h1, ih y (cacheInsert cache name x.entry) name]
    congr 1

/-! ### Claim C2 -/

/-- C2 counterexample: when the startup sweep raises, the observer is never
started — `OBSERVER.start()` sits in the same `try` block after the sweep, so
the exception jumps over it into the `except` handler.  This refutes the claim
that the watcher is still started. -/
theorem claim_C2_counterexample :
    StartupAction.startObserver ∉ lifespanStartupTrace true := by decide

/-- C2 (amended): a startup-sweep failure is logged and the application still
yields (boots), but the watcher is *not* started: the subsystem runs with an
empty cache and no observer.  On a clean sweep the observer is started and no
startup error is logged. -/
theorem claim_C2_amended :
    (StartupAction.logStartupError ∈ lifespanStartupTrace true ∧
     StartupAction.yieldApp ∈ lifespanStartupTrace true ∧
     StartupAction.startObserver ∉ lifespanStartupTrace true) ∧
    (StartupAction.startObserver ∈ lifespanStartupTrace false ∧
     StartupAction.logStartupError ∉ lifespanStartupTrace false) := by
  decide

/-! ### Claim C3 -/

/-- C3 counterexample: on a root that does not exist, `os.walk` (with its
default `onerror=None`) silently enumerates nothing, so `calculate_folder_hash`
returns the digest of the empty byte stream and *does* store a cache entry for
the name — it does not return an error. -/
theorem claim_C3_counterexample :
    (calculate_folder_hash (fun x => x) [[103]] none 3 bufferSize 7 []).1 =
      some ⟨[103], [], 7⟩ ∧
    cacheGet (calculate_folder_hash (fun x => x) [[103]] none 3 bufferSize 7 []).2
        [103] = some ⟨[103], [], 7⟩ := by
  exact ⟨rfl, rfl⟩

/-- C3 (amended): for a missing or unreadable root, `calculate_folder_hash`
silently treats the directory as empty: it returns the record whose hash is the
digest of the empty stream and caches it under the folder's basename.  Only a
failing read of an *enumerated file* (non-busy error, or busy retries
exhausted) makes it return `None`, and then the cache is left untouched. -/
theorem claim_C3_amended (H : Bytes → Bytes) (folderpath : FsPath)
    (retries bufSize now : Nat) (cache : Cache) :
    calculate_folder_hash H folderpath none retries bufSize now cache =
      (some ⟨pathName folderpath, H [], now⟩,
       cacheInsert cache (pathName folderpath) ⟨pathName folderpath, H [], now⟩) ∧
    ∀ (fs : Option (List FileEntry)),
      (calculate_folder_hash H folderpath fs retries bufSize now cache).1 = none →
      (calculate_folder_hash H folderpath fs retries bufSize now cache).2 = cache := by
  constructor
  · rfl
  · intro fs
    exact (calculate_folder_hash_spec H folderpath fs retries bufSize now cache).1

theorem claim_C3_amended_witness :
    calculate_folder_hash (fun x => x) [[100]] none 3 4 5 [] =
      (some ⟨[100], [], 5⟩, cacheInsert [] [100] ⟨[100], [], 5⟩) ∧
    (calculate_folder_hash (fun x => x) [[100]]
        (some [⟨[101], [1], [Attempt.fail 0 false]⟩]) 3 4 5 []).2 = [] :=
  ⟨(claim_C3_amended (fun x => x) [[100]] 3 4 5 []).1,
   (claim_C3_amended (fun x => x) [[100]] 3 4 5 []).2
     (some [⟨[101], [1], [Attempt.fail 0 false]⟩]) rfl⟩

/-! ### Claim C4 -/

/-- C4 is false of the code: the `sha256` object is created *before* the retry
loop and never reset, so a first attempt that absorbs `k + 1` chunks before
raising EBUSY leaves those bytes in the digest state; the successful retry then
absorbs the whole file again.  The resulting digest input is
`partial ++ content`, which differs from the clean input `content` — the claim
demands they be the same, and the spec itself says a partial read must never
produce a wrong cached digest. -/
theorem claim_C4_bug (H : Bytes → Bytes) (filepath : FsPath) (x : Nat)
    (content : Bytes) (k r b now : Nat) (cache : Cache) :
    (calculate_hash H filepath (x :: content) [Attempt.fail (k + 1) true]
        (r + 2) (b + 1) now cache).1 =
      some ⟨pathName filepath,
        H (((chunksOf (b + 1) (x :: content)).take (k + 1)).flatten ++ (x :: content)),
        now⟩ ∧
    ((chunksOf (b + 1) (x :: content)).take (k + 1)).flatten ++ (x :: content) ≠
      x :: content := by
  have h1 : attemptRead (b + 1) (x :: content) (r + 2) [Attempt.fail (k + 1) true] [] =
      some ((((chunksOf (b + 1) (x :: content)).take (k + 1)).flatten) ++ (x :: content)) := by
    rw [attemptRead]
    simp only [List.headD_cons, List.tail_cons]
    rw [if_pos ⟨trivial, Nat.succ_pos r⟩]
    rw [attemptRead_clean_content b (x :: content) r []
      ([] ++ ((chunksOf (b + 1) (x :: content)).take (k + 1)).flatten) rfl]
    simp
  have hpartial : 0 < (((chunksOf (b + 1) (x :: content)).take (k + 1)).flatten).length := by
    rw [chunksOf]
    simp
  constructor
  · unfold calculate_hash
    rw [h1]
  · intro he
    have hlen := congrArg List.length he
    simp only [List.length_append] at hlen
    omega

/-! ### Claim C5 -/

/-- C5: a clean read (first attempt succeeds) returns the digest of the file's
exact byte content — the 1 MiB chunking is invisible because the concatenation
of the chunks is the content itself — and stores it under the file's basename;
hence any two clean executions on the same content return identical digests. -/
theorem claim_C5 (H : Bytes → Bytes) (filepath : FsPath) (content : Bytes)
    (sched₁ sched₂ : List Attempt) (r₁ b₁ now₁ r₂ b₂ now₂ : Nat)
    (cache₁ cache₂ : Cache)
    (h₁ : sched₁.headD Attempt.ok = Attempt.ok)
    (h₂ : sched₂.headD Attempt.ok = Attempt.ok) :
    calculate_hash H filepath content sched₁ (r₁ + 1) (b₁ + 1) now₁ cache₁ =
      (some ⟨pathName filepath, H content, now₁⟩,
       cacheInsert cache₁ (pathName filepath) ⟨pathName filepath, H content, now₁⟩) ∧
    (calculate_hash H filepath content sched₁ (r₁ + 1) (b₁ + 1) now₁ cache₁).1.map
        HashResult.hash =
      (calculate_hash H filepath content sched₂ (r₂ + 1) (b₂ + 1) now₂ cache₂).1.map
        HashResult.hash := by
  have e1 := calculate_hash_clean H filepath content sched₁ r₁ b₁ now₁ cache₁ h₁
  have e2 := calculate_hash_clean H filepath content sched₂ r₂ b₂ now₂ cache₂ h₂
  refine ⟨e1, ?_⟩
  rw [e1, e2]
  rfl

theorem claim_C5_witness :
    calculate_hash (fun x => x) [[97]] [1, 2] [] 3 4 5 [] =
      (some ⟨[97], [1, 2], 5⟩, cacheInsert [] [97] ⟨[97], [1, 2], 5⟩) ∧
    (calculate_hash (fun x => x) [[97]] [1, 2] [] 3 4 5 []).1.map HashResult.hash =
      (calculate_hash (fun x => x) [[97]] [1, 2] [] 3 4 6 []).1.map HashResult.hash :=
  claim_C5 (fun x => x) [[97]] [1, 2] [] [] 2 3 5 2 3 6 [] [] rfl rfl

/-! ### Claim C6 -/

/-- C6 counterexample: because relative path and content are concatenated with
no separator, renaming is not always visible in the digest input.  In a
directory containing files "ab" and "aba" (both empty), renaming "ab" to "ba"
with its content unchanged leaves the digest input equal to "ababa" both
before and after — so "renaming a contained file changes the digest input" is
false of the code. -/
theorem claim_C6_counterexample :
    folderDigestInput [[117]] [([97, 98], []), ([97, 98, 97], [])] =
      folderDigestInput [[117]] [([97, 98, 97], []), ([98, 97], [])] ∧
    folderDigestInput [[117]] [([97, 98], []), ([97, 98, 97], [])] =
      [97, 98, 97, 98, 97] ∧
    ([97, 98] : Bytes) ≠ [98, 97] := by
  refine ⟨by decide, by decide, by decide⟩

/-- C6 (amended): a clean `calculate_folder_hash` digests exactly the fold of
relative path followed by content over the contained files in lexicographically
sorted relative-path order (sorting the full joined paths, as the code does,
equals sorting the relative paths); the digest input is therefore independent
of the enumeration order of the walk, and adding or removing a contained file
(nonempty name, fresh among the others) always changes the digest input.
Renaming, however, only *usually* changes it — see the counterexample. -/
theorem claim_C6_amended :
    (∀ (H : Bytes → Bytes) (folderpath : FsPath) (files : List (Bytes × Bytes))
       (r b now : Nat) (cache : Cache),
       (calculate_folder_hash H folderpath (some (files.map cleanEntry))
           (r + 1) (b + 1) now cache).1 =
         some ⟨pathName folderpath, H (folderDigestInput folderpath files), now⟩) ∧
    (∀ (folderpath : FsPath) (files : List (Bytes × Bytes)),
       folderDigestInput folderpath files = folderDigestInputSpec files) ∧
    (∀ (folderpath : FsPath) (files₁ files₂ : List (Bytes × Bytes)),
       List.Perm files₁ files₂ → (files₁.map Prod.fst).Nodup →
       folderDigestInput folderpath files₁ = folderDigestInput folderpath files₂) ∧
    (∀ (folderpath : FsPath) (files : List (Bytes × Bytes)) (rc : Bytes × Bytes),
       ((rc :: files).map Prod.fst).Nodup → rc.1 ≠ [] →
       folderDigestInput folderpath (rc :: files) ≠
         folderDigestInput folderpath files) := by
  refine ⟨?_, folderDigestInput_eq_spec, ?_, ?_⟩
  · intro H folderpath files r b now cache
    rw [calculate_folder_hash_clean]
  · intro folderpath files₁ files₂ hperm hnodup
    rw [folderDigestInput_eq_spec, folderDigestInput_eq_spec]
    exact folderDigestInputSpec_perm hperm hnodup
  · intro folderpath files rc hnodup hr
    rw [folderDigestInput_eq_spec, folderDigestInput_eq_spec]
    exact folderDigestInputSpec_add_changes hnodup hr

theorem claim_C6_amended_witness :
    folderDigestInput [[117]] [([97], [1]), ([98], [2])] =
      folderDigestInput [[117]] [([98], [2]), ([97], [1])] ∧
    folderDigestInput [[117]] [([99], [3])] ≠ folderDigestInput [[117]] [] ∧
    (calculate_folder_hash (fun x => x) [[117]] (some [cleanEntry ([97], [1])])
        3 5 9 []).1 =
      some ⟨[117], folderDigestInput [[117]] [([97], [1])], 9⟩ := by
  refine ⟨?_, ?_, ?_⟩
  · exact claim_C6_amended.2.2.1 [[117]] [([97], [1]), ([98], [2])]
      [([98], [2]), ([97], [1])] (List.Perm.swap ([98], [2]) ([97], [1]) [])
      (by decide)
  · exact claim_C6_amended.2.2.2 [[117]] [] ([97+2], [3]) (by decide) (by decide)
  · exact claim_C6_amended.1 (fun x => x) [[117]] [([97], [1])] 2 4 9 []

/-! ### Claim C7 -/

/-- C7: a failed hash computation (busy retries exhausted, a non-busy I/O
error, or — for directories — any failing file read) returns `None` and leaves
the whole cache, in particular the entry previously stored under the name,
exactly as it was: the cache write sits after every `return None`. -/
theorem claim_C7 :
    (∀ (H : Bytes → Bytes) (filepath : FsPath) (content : Bytes)
       (sched : List Attempt) (retries bufSize now : Nat) (cache : Cache),
       (calculate_hash H filepath content sched retries bufSize now cache).1 = none →
       (calculate_hash H filepath content sched retries bufSize now cache).2 = cache) ∧
    (∀ (H : Bytes → Bytes) (folderpath : FsPath) (fs : Option (List FileEntry))
       (retries bufSize now : Nat) (cache : Cache),
       (calculate_folder_hash H folderpath fs retries bufSize now cache).1 = none →
       (calculate_folder_hash H folderpath fs retries bufSize now cache).2 = cache) :=
  ⟨fun H fp c s r b n cache => (calculate_hash_spec H fp c s r b n cache).1,
   fun H fp fs r b n cache => (calculate_folder_hash_spec H fp fs r b n cache).1⟩

theorem claim_C7_witness :
    (calculate_hash (fun x => x) [[97]] [1] [Attempt.fail 0 false] 3 4 5
        [([122], ⟨[122], [9], 0⟩)]).2 = [([122], ⟨[122], [9], 0⟩)] ∧
    (calculate_folder_hash (fun x => x) [[100]]
        (some [⟨[101], [1], [Attempt.fail 0 false]⟩]) 3 4 5
        [([122], ⟨[122], [9], 0⟩)]).2 = [([122], ⟨[122], [9], 0⟩)] :=
  ⟨claim_C7.1 (fun x => x) [[97]] [1] [Attempt.fail 0 false] 3 4 5
      [([122], ⟨[122], [9], 0⟩)] rfl,
   claim_C7.2 (fun x => x) [[100]] (some [⟨[101], [1], [Attempt.fail 0 false]⟩])
      3 4 5 [([122], ⟨[122], [9], 0⟩)] rfl⟩

/-! ### Claim C8 -/

/-- C8: a "deleted" event pops the basename from the cache synchronously and
submits no worker-pool task; a subsequent `get_hash` lookup of that name
answers 404 (not found). -/
theorem claim_C8 (e : FSEvent) (cache : Cache) (h : e.eventType = "deleted") :
    on_any_event e cache = (cachePop cache (pathName e.srcPath), []) ∧
    get_hash (on_any_event e cache).1 (pathName e.srcPath) = HashReply.notFound := by
  have h1 : on_any_event e cache = (cachePop cache (pathName e.srcPath), []) := by
    unfold on_any_event
    rw [if_pos h]
  refine ⟨h1, ?_⟩
  rw [h1]
  simp [get_hash, cacheGet_pop_self]

theorem claim_C8_witness :
    on_any_event ⟨"deleted", false, [[97]], []⟩ [([97], ⟨[97], [1], 2⟩)] =
      (cachePop [([97], ⟨[97], [1], 2⟩)] [97], []) ∧
    get_hash (on_any_event ⟨"deleted", false, [[97]], []⟩
        [([97], ⟨[97], [1], 2⟩)]).1 [97] = HashReply.notFound :=
  claim_C8 ⟨"deleted", false, [[97]], []⟩ [([97], ⟨[97], [1], 2⟩)] rfl

/-! ### Claim C9 -/

theorem startupStore_wf : ∀ (results : List (Option HashResult)) (cache : Cache),
    CacheWF cache → CacheWF (startupStore results cache) := by
  intro results
  induction results with
  | nil => intro cache hc; exact hc
  | cons r rest ih =>
    intro cache hc
    cases r with
    | none => exact ih cache hc
    | some v => exact ih (cacheInsert cache v.filename v) (cacheWF_insert hc rfl)

theorem calculate_hash_wf (H : Bytes → Bytes) (filepath : FsPath) (content : Bytes)
    (sched : List Attempt) (retries bufSize now : Nat) (cache : Cache)
    (hc : CacheWF cache) :
    CacheWF (calculate_hash H filepath content sched retries bufSize now cache).2 := by
  cases h : attemptRead bufSize content retries sched [] with
  | none =>
    simp only [calculate_hash, h]
    exact hc
  | some absorbed =>
    simp only [calculate_hash, h]
    exact cacheWF_insert hc rfl

theorem calculate_folder_hash_wf (H : Bytes → Bytes) (folderpath : FsPath)
    (fs : Option (List FileEntry)) (retries bufSize now : Nat) (cache : Cache)
    (hc : CacheWF cache) :
    CacheWF (calculate_folder_hash H folderpath fs retries bufSize now cache).2 := by
  cases h : hashFilesLoop bufSize retries (osWalk fs) (pathBytes folderpath)
      (sortLe ((osWalk fs).map (fun f => pathJoin (pathBytes folderpath) f.rel))) [] with
  | none =>
    simp only [calculate_folder_hash, h]
    exact hc
  | some absorbed =>
    simp only [calculate_folder_hash, h]
    exact cacheWF_insert hc rfl

theorem on_any_event_wf (e : FSEvent) (cache : Cache) (hc : CacheWF cache) :
    CacheWF (on_any_event e cache).1 := by
  unfold on_any_event
  by_cases h1 : e.eventType = "deleted"
  · rw [if_pos h1]
    exact cacheWF_pop hc _
  · rw [if_neg h1]
    show CacheWF (if e.eventType = "moved" then cachePop cache (pathName e.srcPath)
      else cache)
    by_cases h2 : e.eventType = "moved"
    · rw [if_pos h2]
      exact cacheWF_pop hc _
    · rw [if_neg h2]
      exact hc

/-- C9: every mutation of `HASH_CACHE` — the startup sweep's
`HASH_CACHE[result["filename"]] = result`, the worker writes of
`calculate_hash` / `calculate_folder_hash`, and the pops of `on_any_event` —
preserves the invariant that each stored record's `"filename"` field equals
its own key; and the key under which a hashing function stores its result is
the basename (`pathlib.Path(...).name`) of the hashed path, which is also the
stored record's `"filename"`. -/
theorem claim_C9 :
    (∀ (results : List (Option HashResult)) (cache : Cache),
       CacheWF cache → CacheWF (startupStore results cache)) ∧
    (∀ (H : Bytes → Bytes) (filepath : FsPath) (content : Bytes)
       (sched : List Attempt) (retries bufSize now : Nat) (cache : Cache),
       CacheWF cache →
       CacheWF (calculate_hash H filepath content sched retries bufSize now cache).2 ∧
       ∀ r, (calculate_hash H filepath content sched retries bufSize now cache).1 =
           some r →
         r.filename = pathName filepath ∧
         cacheGet (calculate_hash H filepath content sched retries bufSize now cache).2
             (pathName filepath) = some r) ∧
    (∀ (H : Bytes → Bytes) (folderpath : FsPath) (fs : Option (List FileEntry))
       (retries bufSize now : Nat) (cache : Cache),
       CacheWF cache →
       CacheWF (calculate_folder_hash H folderpath fs retries bufSize now cache).2 ∧
       ∀ r, (calculate_folder_hash H folderpath fs retries bufSize now cache).1 =
           some r →
         r.filename = pathName folderpath ∧
         cacheGet (calculate_folder_hash H folderpath fs retries bufSize now cache).2
             (pathName folderpath) = some r) ∧
    (∀ (e : FSEvent) (cache : Cache),
       CacheWF cache → CacheWF (on_any_event e cache).1) := by
  refine ⟨startupStore_wf, ?_, ?_, on_any_event_wf⟩
  · intro H filepath content sched retries bufSize now cache hc
    refine ⟨calculate_hash_wf H filepath content sched retries bufSize now cache hc,
      fun r hr => ?_⟩
    have hspec := (calculate_hash_spec H filepath content sched retries bufSize now
      cache).2 r hr
    refine ⟨hspec.1, ?_⟩
    rw [hspec.2, ← hspec.1, cacheGet_insert_self]
  · intro H folderpath fs retries bufSize now cache hc
    refine ⟨calculate_folder_hash_wf H folderpath fs retries bufSize now cache hc,
      fun r hr => ?_⟩
    have hspec := (calculate_folder_hash_spec H folderpath fs retries bufSize now
      cache).2 r hr
    refine ⟨hspec.1, ?_⟩
    rw [hspec.2, ← hspec.1, cacheGet_insert_self]

theorem claim_C9_witness :
    CacheWF (startupStore [some ⟨[97], [1], 2⟩] []) ∧
    CacheWF (calculate_hash (fun x => x) [[98]] [1] [] 3 4 5 []).2 ∧
    CacheWF (on_any_event ⟨"deleted", false, [[97]], []⟩ []).1 := by
  have hnil : CacheWF ([] : Cache) := fun p hp => absurd hp (List.not_mem_nil p)
  exact ⟨claim_C9.1 [some ⟨[97], [1], 2⟩] [] hnil,
    (claim_C9.2.1 (fun x => x) [[98]] [1] [] 3 4 5 [] hnil).1,
    claim_C9.2.2.2 ⟨"deleted", false, [[97]], []⟩ [] hnil⟩

/-! ### Claim C10 -/

/-- C10: `get_filesize` performs no existence check and has no 404 branch —
for a missing path the bare `os.path.getsize` call raises and the `OSError`
propagates out of the handler — whereas `check_path_exists` and `list_files`
answer a structured 404 for the same missing path. -/
theorem claim_C10 (fs : StatFS) (p : Bytes) (h : fsExists fs p = false) :
    get_filesize fs p = EndpointResult.raisedOSError enoent ∧
    check_path_exists fs p = EndpointResult.http 404 ∧
    list_files fs p = EndpointResult.http 404 := by
  have hfind : fs.find? (fun q => q.1 == p) = none := by
    unfold fsExists at h
    cases hf : fs.find? (fun q => q.1 == p) with
    | none => rfl
    | some x => rw [hf] at h; simp at h
  refine ⟨?_, ?_, ?_⟩
  · simp [get_filesize, hfind]
  · simp [check_path_exists, h]
  · simp [list_files, h]

theorem claim_C10_witness :
    get_filesize [([97], 5)] [98] = EndpointResult.raisedOSError enoent ∧
    check_path_exists [([97], 5)] [98] = EndpointResult.http 404 ∧
    list_files [([97], 5)] [98] = EndpointResult.http 404 :=
  claim_C10 [([97], 5)] [98] (by decide)

end FileMgmt
